import Mathlib

/-!
Shallow embedding of the upload-and-stream application (single source file
`appyt.py`): the ffmpeg command construction, the bounded session log buffer,
the chunked upload receiver, the start/stop process-supervisor request
handlers, the upload destination-name derivation, and the startup settings
file.  Lists of `Nat` model byte sequences; process handles are opaque `Nat`
ids; external effects (process liveness, spawning, termination behaviour) are
supplied as explicit parameters so every definition stays executable.
-/

namespace Appyt

/-! ### ffmpeg command construction (`start_ffmpeg`, lines 100-119) -/

/-- `output_url = f"rtmp://a.rtmp.youtube.com/live2/{stream_key}"`. -/
def output_url (stream_key : String) : String :=
  "rtmp://a.rtmp.youtube.com/live2/" ++ stream_key

/-- `scale_arg = ["-vf", "scale=720:1280"] if is_shorts else []`. -/
def scale_arg (is_shorts : Bool) : List String :=
  if is_shorts then ["-vf", "scale=720:1280"] else []

/-- The argument list `cmd` built by `start_ffmpeg`. -/
def ffmpeg_cmd (video_path stream_key : String) (is_shorts : Bool) : List String :=
  ["ffmpeg",
   "-re",
   "-stream_loop", "-1",
   "-i", video_path,
   "-c:v", "libx264", "-preset", "veryfast", "-b:v", "2500k",
   "-maxrate", "2500k", "-bufsize", "5000k",
   "-g", "60", "-keyint_min", "60",
   "-c:a", "aac", "-b:a", "128k"]
  ++ scale_arg is_shorts
  ++ ["-f", "flv", output_url stream_key]

/-! ### The bounded log buffer (`append_log`, lines 222-228)

`append_log` appends a timestamped line and stores the last-200 slice
(`logs[-200:]`) back into `st.session_state["logs"]`. -/

/-- Python `l[-n:]`: the last `n` elements (the whole list when shorter). -/
def lastN (n : Nat) (l : List α) : List α :=
  l.drop (l.length - n)

/-- The timestamped entry `f"[{time.strftime(...)}] {msg}"`. -/
def logEntry (t msg : String) : String :=
  "[" ++ t ++ "] " ++ msg

/-- One `append_log(msg)` call acting on the stored buffer: append the
timestamped entry, then keep the last 200 lines. -/
def append_log (logs : List String) (t msg : String) : List String :=
  lastN 200 ((logs ++ [logEntry t msg]))

/-- The stored buffer after a whole sequence of `append_log` calls (each a
timestamp/message pair), starting from the empty buffer. -/
def runLog (msgs : List (String × String)) : List String :=
  msgs.foldl (fun b p => append_log b p.1 p.2) []

/-! ### Chunked file receiver (`save_uploaded_file`, lines 64-95)

Bytes are `Nat`s; the upload source is its byte list and `read(chunk_size)`
returns the next `chunk_size`-byte slice (the source object is an in-memory
file, whose `read` returns exactly `min(n, remaining)` bytes).  The progress
callback may raise (`Except.error`); the loop wraps each invocation in
`try ... except Exception: pass`.  The result records the bytes written to
the destination and the argument pairs of every callback invocation. -/

def chunk_size : Nat := 1024 * 1024

/-- `try: progress_callback(written, total) except Exception: pass` — the
callback's outcome, normal or exceptional, is absorbed. -/
def swallow (r : Except String Unit) : Except String Unit :=
  match r with
  | Except.ok _ => Except.ok ()
  | Except.error _ => Except.ok ()

/-- The write loop of `save_uploaded_file`: read a chunk, write it, bump the
written counter, invoke the callback inside the try/except, repeat until the
read comes back empty.  An exception escaping the callback guard would abort
the loop through the `Except.error` branch; `swallow` never produces one. -/
def saveGo (cb : Nat → Option Nat → Except String Unit) (total : Option Nat)
    (data : List Nat) (written : Nat) :
    Except String (List Nat × List (Nat × Option Nat)) :=
  if _hne : data = [] then Except.ok ([], [])
  else
    let chunk := data.take chunk_size
    let w := written + chunk.length
    match swallow (cb w total) with
    | Except.ok _ =>
      match saveGo cb total (data.drop chunk_size) w with
      | Except.ok r => Except.ok (chunk ++ r.1, (w, total) :: r.2)
      | Except.error e => Except.error e
    | Except.error e => Except.error e
termination_by data.length
decreasing_by
  have h0 : data.length ≠ 0 := fun hl => _hne (List.length_eq_zero.mp hl)
  simp [List.length_drop, chunk_size]
  omega

/-- `save_uploaded_file(uploaded_file, dest_path, progress_callback)`. -/
def save_uploaded_file (data : List Nat) (total : Option Nat)
    (cb : Nat → Option Nat → Except String Unit) :
    Except String (List Nat × List (Nat × Option Nat)) :=
  saveGo cb total data 0

/-- Number of reads a `len`-byte source needs: `⌈len / chunk_size⌉`. -/
def numChunks (len : Nat) : Nat := (len + chunk_size - 1) / chunk_size

/-! ### Session state and the start/stop request handlers (`main`, lines 230-278)

`st.session_state` holds the process handle (`"ffmpeg_proc"`, an opaque pid
here) and the log list.  The environment supplies `alive` (whether
`poll() is None` for a pid), `spawn` (the `subprocess.Popen` result: `none`
models `FileNotFoundError`), and for stop a `StopBehavior` describing how the
child reacts to `terminate`/`wait(timeout=5)`/`kill`. -/

structure Session where
  ffmpeg_proc : Option Nat
  logs : List String
deriving DecidableEq, Repr

inductive StartOutcome where
  | alreadyRunningError
  | binaryNotFoundError
  | started (pid : Nat)
deriving DecidableEq, Repr

structure StartResult where
  session : Session
  outcome : StartOutcome
  popenCalled : Bool
deriving DecidableEq, Repr

def missing_binary_msg : String :=
  "Error: ffmpeg tidak ditemukan. Pastikan ffmpeg terinstall dan ada di PATH."

/-- `start_ffmpeg` (lines 100-125): log the command line, call `Popen`
(`spawn = none` models `FileNotFoundError`, logging the missing-binary
message and returning `None`).  Returns the handle and the updated logs. -/
def start_ffmpeg (video_path stream_key : String) (is_shorts : Bool)
    (spawn : Option Nat) (t : String) (logs : List String) :
    Option Nat × List String :=
  let logs1 := append_log logs t
    ("Menjalankan ffmpeg: " ++ " ".intercalate (ffmpeg_cmd video_path stream_key is_shorts))
  match spawn with
  | none => (none, append_log logs1 t missing_binary_msg)
  | some pid => (some pid, logs1)

/-- `proc and proc.poll() is None` on the stored handle. -/
def sessionLive (s : Session) (alive : Nat → Bool) : Bool :=
  match s.ffmpeg_proc with
  | some p => alive p
  | none => false

/-- The start-button branch (lines 249-260), entered once a video path,
stream key and ffmpeg binary check have passed. -/
def startRequest (s : Session) (alive : Nat → Bool) (spawn : Option Nat)
    (video_path stream_key : String) (is_shorts : Bool) (t : String) :
    StartResult :=
  if sessionLive s alive then
    { session := s, outcome := .alreadyRunningError, popenCalled := false }
  else
    let logs1 := append_log s.logs t ("Memulai streaming: " ++ video_path)
    let res := start_ffmpeg video_path stream_key is_shorts spawn t logs1
    match res.1 with
    | some pid =>
      { session := { ffmpeg_proc := some pid, logs := res.2 },
        outcome := .started pid, popenCalled := true }
    | none =>
      { session := { ffmpeg_proc := s.ffmpeg_proc, logs := res.2 },
        outcome := .binaryNotFoundError, popenCalled := true }

/-- How the live child reacts to the stop sequence. -/
inductive StopBehavior where
  | terminateRaises (msg : String)
  | exitsWithinGrace
  | graceTimeoutKillOk
  | graceTimeoutKillRaises (msg : String)
deriving DecidableEq, Repr

/-- Observable process-control actions issued by the stop handler. -/
inductive StopAct where
  | terminate
  | wait (timeoutSecs : Nat)
  | kill
deriving DecidableEq, Repr

inductive StopReport where
  | stopped
  | failed (msg : String)
  | nothingActive
deriving DecidableEq, Repr

structure StopResult where
  session : Session
  acts : List StopAct
  report : StopReport
deriving DecidableEq, Repr

/-- The stop-button branch (lines 262-278): on a live handle, log, then
`terminate()`; `wait(timeout=5)`; on any wait failure `kill()`; any
exception from terminate/kill is caught and logged; in every path the stored
handle is then set to `None`.  With no live handle: `st.info` only. -/
def stopRequest (s : Session) (alive : Nat → Bool) (b : StopBehavior)
    (t : String) : StopResult :=
  if sessionLive s alive then
    let logs1 := append_log s.logs t "Menghentikan proses ffmpeg..."
    match b with
    | .terminateRaises m =>
      { session := { ffmpeg_proc := none,
                     logs := append_log logs1 t ("Gagal menghentikan ffmpeg: " ++ m) },
        acts := [.terminate], report := .failed m }
    | .exitsWithinGrace =>
      { session := { ffmpeg_proc := none,
                     logs := append_log logs1 t "Proses ffmpeg dihentikan." },
        acts := [.terminate, .wait 5], report := .stopped }
    | .graceTimeoutKillOk =>
      { session := { ffmpeg_proc := none,
                     logs := append_log logs1 t "Proses ffmpeg dihentikan." },
        acts := [.terminate, .wait 5, .kill], report := .stopped }
    | .graceTimeoutKillRaises m =>
      { session := { ffmpeg_proc := none,
                     logs := append_log logs1 t ("Gagal menghentikan ffmpeg: " ++ m) },
        acts := [.terminate, .wait 5, .kill], report := .failed m }
  else
    { session := s, acts := [], report := .nothingActive }

/-! ### Upload destination naming (`main`, lines 182-186) -/

/-- Index of the last `.` in a file name, if any. -/
def lastDotIdx (cs : List Char) : Option Nat :=
  match cs.reverse.findIdx? (fun c => c == '.') with
  | some j => some (cs.length - 1 - j)
  | none => none

/-- `pathlib`'s `(stem, suffix)` split of a file name: the suffix starts at
the last dot provided that dot is neither the first nor the last character. -/
def splitExt (name : String) : String × String :=
  match lastDotIdx name.toList with
  | some i =>
    if 0 < i ∧ i < name.toList.length - 1 then
      (String.mk (name.toList.take i), String.mk (name.toList.drop i))
    else (name, "")
  | none => (name, "")

/-- Destination-name choice for an upload named `name`:
`dest = UPLOAD_DIR / name`; if that path exists,
`dest = f"{dest.stem}_{int(time.time())}{dest.suffix}"`.  `existsAt` is the
file-existence test inside the uploads directory, `stamp` is
`int(time.time())`. -/
def derive_dest_name (existsAt : String → Bool) (name : String) (stamp : Nat) :
    String :=
  if existsAt name then
    (splitExt name).1 ++ "_" ++ toString stamp ++ (splitExt name).2
  else name

/-! ### Startup settings file (lines 21-34) -/

def config_content : String :=
  "[server]\nmaxUploadSize = 4096\nenableXsrfProtection = false\n"

/-- Startup behaviour on the settings file: given its current content
(`none` when absent), return the content afterwards and whether a write
happened (`if not CONFIG_PATH.exists(): CONFIG_PATH.write_text(...)`). -/
def startup_config : Option String → Option String × Bool
  | some c => (some c, false)
  | none => (some config_content, true)

/-! ### Helper lemmas -/

theorem data_append (s t : String) : (s ++ t).data = s.data ++ t.data := by
  cases s; cases t; rfl

theorem lastN_length_le (n : Nat) (l : List α) : (lastN n l).length ≤ n := by
  simp only [lastN, List.length_drop]
  omega

/-- Trimming to the last `n`, appending one element and trimming again is the
same as appending to the untrimmed list and trimming once. -/
theorem lastN_append_one (n : Nat) (l : List α) (a : α) :
    lastN n (lastN n l ++ [a]) = lastN n (l ++ [a]) := by
  unfold lastN
  rcases Nat.lt_or_ge l.length n with h1 | h1
  · have h0 : l.length - n = 0 := by omega
    rw [h0, List.drop_zero]
  · have hlen : (l.drop (l.length - n)).length = n := by
      rw [List.length_drop]; omega
    rw [List.length_append, hlen, List.length_singleton, List.length_append,
      List.length_singleton]
    rcases Nat.eq_zero_or_pos n with hn | hn
    · subst hn
      rw [List.length_eq_zero.mp hlen, List.nil_append,
        List.drop_eq_nil_of_le (by simp),
        List.drop_eq_nil_of_le (by simp [List.length_append])]
    · rw [show n + 1 - n = 1 by omega,
        show l.length + 1 - n = (l.length - n) + 1 by omega]
      rw [List.drop_append_of_le_length (by omega : 1 ≤ (l.drop (l.length - n)).length),
        List.drop_drop,
        List.drop_append_of_le_length (by omega : l.length - n + 1 ≤ l.length)]

theorem runLog_eq (msgs : List (String × String)) :
    runLog msgs = lastN 200 (msgs.map fun p => logEntry p.1 p.2) := by
  induction msgs using List.reverseRecOn with
  | nil => rfl
  | append_singleton xs x ih =>
    show List.foldl _ [] (xs ++ [x]) = _
    rw [List.foldl_concat]
    have : List.foldl (fun b p => append_log b p.1 p.2) [] xs = runLog xs := rfl
    rw [this, ih]
    unfold append_log
    rw [lastN_append_one, List.map_append]
    rfl

theorem swallow_ok (r : Except String Unit) : swallow r = Except.ok () := by
  cases r <;> rfl

/-- One step of the callback-trace arithmetic: the head call reports the
first chunk, the tail calls shift by one chunk. -/
theorem calls_cons_eq (L w : Nat) (total : Option Nat) (h0 : L ≠ 0) :
    ((w + min chunk_size L, total)
      :: (List.range (numChunks (L - chunk_size))).map
           (fun i => (w + min chunk_size L
              + min ((i + 1) * chunk_size) (L - chunk_size), total)))
      = (List.range (numChunks L)).map
          (fun i => (w + min ((i + 1) * chunk_size) L, total)) := by
  have hm : numChunks L = numChunks (L - chunk_size) + 1 := by
    simp only [numChunks, chunk_size]
    omega
  rw [hm, List.range_succ_eq_map, List.map_cons, List.map_map]
  refine congrArg₂ _ ?_ ?_
  · simp
  · refine List.map_congr_left ?_
    intro i hi
    rw [List.mem_range] at hi
    simp only [Function.comp_apply, Prod.mk.injEq, and_true]
    simp only [numChunks, chunk_size] at hi ⊢
    omega

/-- Closed form of the receiver loop: it always succeeds, writes exactly the
source bytes, and fires one callback per chunk with the cumulative byte
count. -/
theorem saveGo_eq (cb : Nat → Option Nat → Except String Unit) (total : Option Nat) :
    ∀ (n : Nat) (data : List Nat), data.length ≤ n → ∀ (written : Nat),
      saveGo cb total data written
        = Except.ok (data,
            (List.range (numChunks data.length)).map
              (fun i => (written + min ((i + 1) * chunk_size) data.length, total))) := by
  intro n
  induction n with
  | zero =>
    intro data hd written
    have hdeq : data = [] := List.length_eq_zero.mp (Nat.le_zero.mp hd)
    subst hdeq
    unfold saveGo
    simp [numChunks, chunk_size]
  | succ n ihn =>
    intro data hd written
    by_cases hnil : data = []
    · subst hnil
      unfold saveGo
      simp [numChunks, chunk_size]
    · have h0 : data.length ≠ 0 := fun hl => hnil (List.length_eq_zero.mp hl)
      have hcs : 0 < chunk_size := by simp [chunk_size]
      have hlen : (data.drop chunk_size).length ≤ n := by
        rw [List.length_drop]; omega
      unfold saveGo
      rw [dif_neg hnil]
      simp only [swallow_ok]
      rw [ihn (data.drop chunk_size) hlen]
      simp only [List.length_take, List.length_drop, List.take_append_drop]
      exact congrArg Except.ok (Prod.ext rfl (calls_cons_eq data.length written total h0))

/-- `logEntry t` is injective in the message. -/
theorem logEntry_inj (t : String) {a b : String} (h : logEntry t a = logEntry t b) :
    a = b := by
  unfold logEntry at h
  have hd := congrArg String.data h
  simp only [data_append] at hd
  exact String.ext (List.append_cancel_left hd)

theorem memulai_ne_missing (t vp : String) :
    logEntry t ("Memulai streaming: " ++ vp) ≠ logEntry t missing_binary_msg := by
  intro h
  have h2 := logEntry_inj t h
  have hd : ("Memulai streaming: " ++ vp).data.head? = missing_binary_msg.data.head? := by
    rw [h2]
  rw [data_append] at hd
  simp [missing_binary_msg] at hd

theorem menjalankan_ne_missing (t c : String) :
    logEntry t ("Menjalankan ffmpeg: " ++ c) ≠ logEntry t missing_binary_msg := by
  intro h
  have h2 := logEntry_inj t h
  have hd : ("Menjalankan ffmpeg: " ++ c).data.head? = missing_binary_msg.data.head? := by
    rw [h2]
  rw [data_append] at hd
  simp [missing_binary_msg] at hd

theorem lastN_of_length_le (n : Nat) (l : List α) (h : l.length ≤ n) :
    lastN n l = l := by
  unfold lastN
  rw [Nat.sub_eq_zero_of_le h, List.drop_zero]

/-- Trimming distributes over appending any tail. -/
theorem lastN_append_right (n : Nat) (l xs : List α) :
    lastN n (lastN n l ++ xs) = lastN n (l ++ xs) := by
  induction xs using List.reverseRecOn with
  | nil =>
    rw [List.append_nil, List.append_nil]
    exact lastN_of_length_le n _ (lastN_length_le n l)
  | append_singleton ys y ih =>
    rw [← List.append_assoc, ← List.append_assoc]
    calc lastN n ((lastN n l ++ ys) ++ [y])
        = lastN n (lastN n (lastN n l ++ ys) ++ [y]) := (lastN_append_one n _ y).symm
      _ = lastN n (lastN n (l ++ ys) ++ [y]) := by rw [ih]
      _ = lastN n ((l ++ ys) ++ [y]) := lastN_append_one n _ y

/-- Three consecutive `append_log` calls amount to appending the three
entries to the untrimmed history and trimming once. -/
theorem append_log_three (l : List String) (t m1 m2 m3 : String) :
    append_log (append_log (append_log l t m1) t m2) t m3
      = lastN 200 (l ++ [logEntry t m1, logEntry t m2, logEntry t m3]) := by
  unfold append_log
  rw [lastN_append_right, List.append_assoc, lastN_append_right]
  simp [List.append_assoc]

/-- The stem/suffix split of `pathlib` reassembles to the original name. -/
theorem splitExt_append (name : String) :
    (splitExt name).1 ++ (splitExt name).2 = name := by
  apply String.ext
  rw [data_append]
  unfold splitExt
  cases h : lastDotIdx name.toList with
  | none => simp
  | some i =>
    dsimp only
    by_cases hcond : 0 < i ∧ i < name.toList.length - 1
    · rw [if_pos hcond]
      exact List.take_append_drop i name.data
    · rw [if_neg hcond]
      simp

/-! ### Claim theorems -/

/-- C1: for every destination key and mode the sink URL is the fixed prefix
`rtmp://a.rtmp.youtube.com/live2/` concatenated with the key and appears as
the final ffmpeg argument; with key `"abc123"` and standard mode the URL is
exactly `rtmp://a.rtmp.youtube.com/live2/abc123` and the scale filter
`scale=720:1280` is absent; in vertical (shorts) mode it is present. -/
theorem ffmpeg_cmd_sink_url_and_scale (video_path stream_key : String) (b : Bool)
    (hvp : video_path ≠ "scale=720:1280") :
    output_url stream_key = "rtmp://a.rtmp.youtube.com/live2/" ++ stream_key
    ∧ (ffmpeg_cmd video_path stream_key b).getLast? = some (output_url stream_key)
    ∧ output_url "abc123" = "rtmp://a.rtmp.youtube.com/live2/abc123"
    ∧ "scale=720:1280" ∉ ffmpeg_cmd video_path stream_key false
    ∧ "scale=720:1280" ∈ ffmpeg_cmd video_path stream_key true := by
  have hurl : ∀ k : String, ("scale=720:1280" : String) ≠
      "rtmp://a.rtmp.youtube.com/live2/" ++ k := by
    intro k hc
    have hd : ("scale=720:1280" : String).data.head?
        = ("rtmp://a.rtmp.youtube.com/live2/" ++ k).data.head? := by rw [hc]
    rw [data_append] at hd
    simp at hd
  refine ⟨rfl, ?_, rfl, ?_, ?_⟩
  · show (_ ++ scale_arg b ++ ("-f" :: "flv" :: [output_url stream_key])).getLast? = _
    rw [List.getLast?_append_cons]
    rfl
  · simp [ffmpeg_cmd, scale_arg, output_url, hvp.symm, hurl stream_key]
  · simp [ffmpeg_cmd, scale_arg]

/-- C1 witness at concrete inputs. -/
theorem ffmpeg_cmd_sink_url_and_scale_witness :
    output_url "abc123" = "rtmp://a.rtmp.youtube.com/live2/" ++ "abc123"
    ∧ (ffmpeg_cmd "video.mp4" "abc123" false).getLast? = some (output_url "abc123")
    ∧ output_url "abc123" = "rtmp://a.rtmp.youtube.com/live2/abc123"
    ∧ "scale=720:1280" ∉ ffmpeg_cmd "video.mp4" "abc123" false
    ∧ "scale=720:1280" ∈ ffmpeg_cmd "video.mp4" "abc123" true :=
  ffmpeg_cmd_sink_url_and_scale "video.mp4" "abc123" false (by decide)

/-- C2: after any sequence of appends starting from the empty buffer, the
stored log buffer holds at most 200 entries and equals exactly the
timestamped images of the most recent appends in order (FIFO eviction of the
oldest). -/
theorem append_log_bounded_fifo (msgs : List (String × String)) :
    (runLog msgs).length ≤ 200
    ∧ runLog msgs = lastN 200 (msgs.map fun p => logEntry p.1 p.2) := by
  refine ⟨?_, runLog_eq msgs⟩
  rw [runLog_eq msgs]
  exact lastN_length_le 200 _

/-- C4: for every upload source and declared total, the receiver succeeds and
writes a byte-identical copy of the source, reading in fixed 1 MiB chunks
until exhausted, and invokes the progress callback once per chunk with the
cumulative `bytes_written` (`min ((i+1)·chunk_size) |data|` after the `i`-th
chunk) and the total-or-unknown. -/
theorem save_uploaded_file_copies_and_reports (data : List Nat) (total : Option Nat)
    (cb : Nat → Option Nat → Except String Unit) :
    save_uploaded_file data total cb
      = Except.ok (data,
          (List.range (numChunks data.length)).map
            (fun i => (min ((i + 1) * chunk_size) data.length, total))) := by
  unfold save_uploaded_file
  rw [saveGo_eq cb total data.length data le_rfl 0]
  simp

/-- C10: an exception raised by the progress callback on any chunk is
swallowed: the run is indistinguishable from one with a never-raising
callback, the loop always returns success, and the complete file is still
written. -/
theorem save_uploaded_file_callback_errors_swallowed (data : List Nat)
    (total : Option Nat) (cb : Nat → Option Nat → Except String Unit) :
    save_uploaded_file data total cb
        = save_uploaded_file data total (fun _ _ => Except.ok ())
      ∧ ∃ calls, save_uploaded_file data total cb = Except.ok (data, calls) := by
  unfold save_uploaded_file
  rw [saveGo_eq cb total data.length data le_rfl 0,
    saveGo_eq (fun _ _ => Except.ok ()) total data.length data le_rfl 0]
  exact ⟨rfl, _, rfl⟩

/-- C3: a start request while the stored handle polls as alive fails with
`AlreadyRunningError`, leaves the session (stored handle included) exactly as
it was, and never reaches `Popen` (no new process is spawned, the handle is
not replaced). -/
theorem startRequest_already_running (s : Session) (alive : Nat → Bool)
    (spawn : Option Nat) (vp key : String) (sh : Bool) (t : String) (p : Nat)
    (hp : s.ffmpeg_proc = some p) (ha : alive p = true) :
    startRequest s alive spawn vp key sh t
      = { session := s, outcome := .alreadyRunningError, popenCalled := false } := by
  have hl : sessionLive s alive = true := by
    unfold sessionLive
    rw [hp]
    exact ha
  simp [startRequest, hl]

/-- C3 witness at a concrete live session. -/
theorem startRequest_already_running_witness :
    (⟨some 1, []⟩ : Session).ffmpeg_proc = some 1
    ∧ (fun _ : Nat => true) 1 = true
    ∧ startRequest ⟨some 1, []⟩ (fun _ => true) (some 2) "v.mp4" "k" false "00:00:00"
        = { session := ⟨some 1, []⟩, outcome := .alreadyRunningError,
            popenCalled := false } :=
  ⟨rfl, rfl,
    startRequest_already_running ⟨some 1, []⟩ (fun _ => true) (some 2) "v.mp4" "k"
      false "00:00:00" 1 rfl rfl⟩

/-- C5: a stop request on a live child first sends the graceful
`terminate`, every wait it issues uses the 5-second grace period, it issues
`kill` exactly in the behaviours where the wait did not return within the
grace period, and in every behaviour (clean exit, forced kill, termination
error) the stored handle is cleared. -/
theorem stopRequest_live_process (s : Session) (alive : Nat → Bool)
    (b : StopBehavior) (t : String) (p : Nat)
    (hp : s.ffmpeg_proc = some p) (ha : alive p = true) :
    (stopRequest s alive b t).session.ffmpeg_proc = none
    ∧ (stopRequest s alive b t).acts.head? = some StopAct.terminate
    ∧ (∀ n, StopAct.wait n ∈ (stopRequest s alive b t).acts → n = 5)
    ∧ (StopAct.kill ∈ (stopRequest s alive b t).acts
        ↔ b = .graceTimeoutKillOk ∨ ∃ m, b = .graceTimeoutKillRaises m) := by
  have hl : sessionLive s alive = true := by
    unfold sessionLive
    rw [hp]
    exact ha
  cases b <;> simp [stopRequest, hl]

/-- C5 witness at a concrete live session, forced-kill behaviour. -/
theorem stopRequest_live_process_witness :
    (⟨some 1, []⟩ : Session).ffmpeg_proc = some 1
    ∧ (fun _ : Nat => true) 1 = true
    ∧ (stopRequest ⟨some 1, []⟩ (fun _ => true) .graceTimeoutKillOk "00:00:00").session.ffmpeg_proc = none
    ∧ (stopRequest ⟨some 1, []⟩ (fun _ => true) .graceTimeoutKillOk "00:00:00").acts.head?
        = some StopAct.terminate :=
  ⟨rfl, rfl,
    (stopRequest_live_process ⟨some 1, []⟩ (fun _ => true) .graceTimeoutKillOk
      "00:00:00" 1 rfl rfl).1,
    (stopRequest_live_process ⟨some 1, []⟩ (fun _ => true) .graceTimeoutKillOk
      "00:00:00" 1 rfl rfl).2.1⟩

/-- C6: a stop request with no stored handle, or with a handle whose process
has already exited, is a pure no-op reporting that nothing is active: no
process-control action is issued, no error is raised, and the session state
(handle and logs) is unchanged. -/
theorem stopRequest_idle_noop (s : Session) (alive : Nat → Bool)
    (b : StopBehavior) (t : String)
    (h : s.ffmpeg_proc = none ∨ ∃ p, s.ffmpeg_proc = some p ∧ alive p = false) :
    stopRequest s alive b t = ⟨s, [], .nothingActive⟩ := by
  have hl : sessionLive s alive = false := by
    unfold sessionLive
    rcases h with h | ⟨p, hp, ha⟩
    · rw [h]
    · rw [hp]
      exact ha
  simp [stopRequest, hl]

/-- C6 witness: stopping with no stored handle and with a dead handle. -/
theorem stopRequest_idle_noop_witness :
    stopRequest ⟨none, []⟩ (fun _ => true) .exitsWithinGrace "00:00:00"
        = ⟨⟨none, []⟩, [], .nothingActive⟩
    ∧ stopRequest ⟨some 7, []⟩ (fun _ => false) .exitsWithinGrace "00:00:00"
        = ⟨⟨some 7, []⟩, [], .nothingActive⟩ :=
  ⟨stopRequest_idle_noop ⟨none, []⟩ (fun _ => true) .exitsWithinGrace "00:00:00"
      (Or.inl rfl),
    stopRequest_idle_noop ⟨some 7, []⟩ (fun _ => false) .exitsWithinGrace "00:00:00"
      (Or.inr ⟨7, rfl, rfl⟩)⟩

set_option maxRecDepth 4096 in
/-- C8: when the encoder binary cannot be located (`Popen` raises
`FileNotFoundError`), the start request yields `BinaryNotFoundError`, the
stored handle is exactly what it was before (in particular none is stored if
none was), and the log gains three entries of which exactly one — the last —
explains the missing binary (the other two are the start announcement and the
command line). -/
theorem startRequest_binary_not_found (s : Session) (alive : Nat → Bool)
    (vp key : String) (sh : Bool) (t : String)
    (hidle : sessionLive s alive = false) :
    (startRequest s alive none vp key sh t).outcome = .binaryNotFoundError
    ∧ (startRequest s alive none vp key sh t).session.ffmpeg_proc = s.ffmpeg_proc
    ∧ (s.ffmpeg_proc = none
        → (startRequest s alive none vp key sh t).session.ffmpeg_proc = none)
    ∧ (startRequest s alive none vp key sh t).session.logs
        = lastN 200 (s.logs
            ++ [logEntry t ("Memulai streaming: " ++ vp),
                logEntry t ("Menjalankan ffmpeg: "
                  ++ " ".intercalate (ffmpeg_cmd vp key sh)),
                logEntry t missing_binary_msg])
    ∧ logEntry t ("Memulai streaming: " ++ vp) ≠ logEntry t missing_binary_msg
    ∧ logEntry t ("Menjalankan ffmpeg: " ++ " ".intercalate (ffmpeg_cmd vp key sh))
        ≠ logEntry t missing_binary_msg := by
  have hres : startRequest s alive none vp key sh t
      = { session :=
            { ffmpeg_proc := s.ffmpeg_proc,
              logs := append_log (append_log (append_log s.logs t
                  ("Memulai streaming: " ++ vp)) t
                  ("Menjalankan ffmpeg: " ++ " ".intercalate (ffmpeg_cmd vp key sh))) t
                  missing_binary_msg },
          outcome := .binaryNotFoundError, popenCalled := true } := by
    unfold startRequest
    rw [hidle, if_neg Bool.false_ne_true]
    unfold start_ffmpeg
    rfl
  refine ⟨?_, ?_, ?_, ?_, memulai_ne_missing t vp, menjalankan_ne_missing t _⟩
  · rw [hres]
  · rw [hres]
  · intro hnone
    rw [hres, hnone]
  · rw [hres]
    exact append_log_three s.logs t _ _ _

/-- C8 witness at a concrete idle session. -/
theorem startRequest_binary_not_found_witness :
    sessionLive ⟨none, []⟩ (fun _ => true) = false
    ∧ (startRequest ⟨none, []⟩ (fun _ => true) none "v.mp4" "k" false "00:00:00").outcome
        = .binaryNotFoundError
    ∧ (startRequest ⟨none, []⟩ (fun _ => true) none "v.mp4" "k" false
        "00:00:00").session.ffmpeg_proc = (⟨none, []⟩ : Session).ffmpeg_proc :=
  ⟨rfl,
    (startRequest_binary_not_found ⟨none, []⟩ (fun _ => true) "v.mp4" "k" false
      "00:00:00" rfl).1,
    (startRequest_binary_not_found ⟨none, []⟩ (fun _ => true) "v.mp4" "k" false
      "00:00:00" rfl).2.1⟩

/-- C9: the settings file is written only when absent: an existing file is
left untouched and no write occurs; an absent file is created with the
large-upload settings in a single write, and a second startup then writes
nothing. -/
theorem startup_config_write_once :
    (∀ c, startup_config (some c) = (some c, false))
    ∧ startup_config none = (some config_content, true)
    ∧ (∀ fs, startup_config (startup_config fs).1 = ((startup_config fs).1, false)) := by
  refine ⟨fun c => rfl, rfl, fun fs => ?_⟩
  cases fs <;> rfl

/-- The uploads directory of the C7 counterexample: both `video.mp4` and
`video_1000.mp4` already exist. -/
def collision_dir : String → Bool :=
  fun s => s == "video.mp4" || s == "video_1000.mp4"

/-- C7 counterexample: uploading `video.mp4` at `time.time() = 1000` into a
directory that already holds `video_1000.mp4` derives exactly that existing
name — the derived name is not collision-free and that pre-existing file is
overwritten, contrary to the claim. -/
theorem derive_dest_collision_counterexample :
    collision_dir "video.mp4" = true
    ∧ derive_dest_name collision_dir "video.mp4" 1000 = "video_1000.mp4"
    ∧ collision_dir (derive_dest_name collision_dir "video.mp4" 1000) = true := by
  refine ⟨rfl, ?_, ?_⟩ <;> decide

/-- C7 amended: when the uploaded name already exists, the destination is
derived by inserting the time stamp between stem and suffix; the derived name
always differs from the uploaded name, so the pre-existing file at that name
is never overwritten — but the derived name is not re-checked for existence
and may coincide with a different pre-existing file. -/
theorem derive_dest_distinct_from_original (existsAt : String → Bool)
    (name : String) (stamp : Nat) (h : existsAt name = true) :
    derive_dest_name existsAt name stamp
        = (splitExt name).1 ++ "_" ++ toString stamp ++ (splitExt name).2
    ∧ derive_dest_name existsAt name stamp ≠ name := by
  refine ⟨by simp [derive_dest_name, h], ?_⟩
  simp only [derive_dest_name, h, if_true]
  intro hc
  have hsplit : (splitExt name).1.length + (splitExt name).2.length = name.length := by
    rw [← String.length_append, splitExt_append]
  have hlen := congrArg String.length hc
  rw [String.length_append, String.length_append, String.length_append] at hlen
  have hu : ("_" : String).length = 1 := rfl
  rw [hu] at hlen
  omega

/-- C7 amended-claim witness at a concrete collision. -/
theorem derive_dest_distinct_from_original_witness :
    collision_dir "video.mp4" = true
    ∧ derive_dest_name collision_dir "video.mp4" 1000
        = (splitExt "video.mp4").1 ++ "_" ++ toString 1000 ++ (splitExt "video.mp4").2
    ∧ derive_dest_name collision_dir "video.mp4" 1000 ≠ "video.mp4" :=
  ⟨rfl,
    (derive_dest_distinct_from_original collision_dir "video.mp4" 1000 rfl).1,
    (derive_dest_distinct_from_original collision_dir "video.mp4" 1000 rfl).2⟩

end Appyt
